import Mathlib

/-!
Verification of the electricity-price query server (`src/server.py`).

The Python source is shallowly embedded below.  Strings are Lean `String`s
(lists of unicode characters, as in Python); machine integers are `Nat`;
Python `None` becomes `Option`; decimal prices become `ℚ` (the source
converts DB decimals through `float` before formatting; we model the
numeric value exactly with rationals).  The regex patterns of
`normalize_date` are anchored prefix patterns built from `\d` quantifiers
and literal separators only; they are embedded as first-order parsers with
the same greedy/backtracking behaviour (`\d` is modelled as an ASCII
digit).  `difflib.get_close_matches` (the only stdlib routine with real
logic used by the source) is embedded including `SequenceMatcher`'s
b2j/autojunk matching algorithm; its float `ratio` and cutoff `0.4` are
modelled as exact rationals (`2*M/T` vs `2/5`), which agrees with the
float comparison for all inputs of physically realisable length.
-/

namespace EPrice

/-- Characters stripped by Python `str.strip()` (str.isspace characters). -/
def isPySpace (c : Char) : Bool :=
  c == ' ' || c == '\t' || c == '\n' || c == '\r' ||
  c.toNat == 0x0B || c.toNat == 0x0C ||
  (decide (0x1C ≤ c.toNat) && decide (c.toNat ≤ 0x1F)) ||
  c.toNat == 0x85 || c.toNat == 0xA0 || c.toNat == 0x1680 ||
  (decide (0x2000 ≤ c.toNat) && decide (c.toNat ≤ 0x200A)) ||
  c.toNat == 0x2028 || c.toNat == 0x2029 ||
  c.toNat == 0x202F || c.toNat == 0x205F || c.toNat == 0x3000

/-- `str.strip()` on the character list. -/
def stripList (l : List Char) : List Char :=
  ((l.dropWhile isPySpace).reverse.dropWhile isPySpace).reverse

/-- `str.strip()`. -/
def pyStrip (s : String) : String := String.mk (stripList s.data)

/-- Python substring test `needle in hay`. -/
def isSubOf : List Char → List Char → Bool
  | n, [] => n.isEmpty
  | n, c :: t => n.isPrefixOf (c :: t) || isSubOf n t

/-- The decimal digit characters (used to render numbers). -/
def digitChar (d : Nat) : Char :=
  match d with
  | 0 => '0' | 1 => '1' | 2 => '2' | 3 => '3' | 4 => '4'
  | 5 => '5' | 6 => '6' | 7 => '7' | 8 => '8' | _ => '9'

/-- Numeric value of a digit character (Python `int` on one digit). -/
def digVal (c : Char) : Nat := c.toNat - '0'.toNat

/-! ### difflib model: `SequenceMatcher.ratio` and `get_close_matches` -/

/-- Indices of occurrences of `c` in `b`, increasing (`SequenceMatcher.__chain_b`). -/
def posList (b : List Char) (c : Char) : List Nat :=
  (List.range b.length).filter (fun j => b.get? j == some c)

/-- `b2j` including the autojunk rule: when `b` has at least 200 elements,
elements occurring more than `len(b)/100 + 1` times are dropped. -/
def b2j (b : List Char) (c : Char) : List Nat :=
  let ps := posList b c
  if decide (200 ≤ b.length) && decide (b.length / 100 + 1 < ps.length) then [] else ps

/-- Lookup in the `j2len` association list (missing key gives 0, like `dict.get(j, 0)`). -/
def alookup (m : List (Nat × Nat)) (j : Nat) : Nat :=
  match m.find? (fun p => p.1 == j) with
  | some p => p.2
  | none => 0

/-- One row (`for j in b2j[a[i]]`) of `find_longest_match`'s dynamic program:
returns the new `j2len` row and the updated best `(i', j', size)` triple. -/
def flmRow (j2prev : List (Nat × Nat)) (i : Nat) (best : Nat × Nat × Nat)
    (js : List Nat) : List (Nat × Nat) × (Nat × Nat × Nat) :=
  js.foldl
    (fun acc j =>
      let k := (if j == 0 then 0 else alookup j2prev (j - 1)) + 1
      ((j, k) :: acc.1,
        if acc.2.2.2 < k then (i + 1 - k, j + 1 - k, k) else acc.2))
    ([], best)

/-- Left-extension loop of `find_longest_match` (junk set is empty: `isjunk=None`). -/
def extLeft (a b : List Char) (alo blo : Nat) : Nat → Nat × Nat × Nat → Nat × Nat × Nat
  | 0, st => st
  | fuel + 1, (bi, bj, bs) =>
    if decide (alo < bi) && decide (blo < bj) &&
        (a.get? (bi - 1)).isSome && (a.get? (bi - 1) == b.get? (bj - 1)) then
      extLeft a b alo blo fuel (bi - 1, bj - 1, bs + 1)
    else (bi, bj, bs)

/-- Right-extension loop of `find_longest_match`. -/
def extRight (a b : List Char) (ahi bhi : Nat) : Nat → Nat × Nat × Nat → Nat × Nat × Nat
  | 0, st => st
  | fuel + 1, (bi, bj, bs) =>
    if decide (bi + bs < ahi) && decide (bj + bs < bhi) &&
        (a.get? (bi + bs)).isSome && (a.get? (bi + bs) == b.get? (bj + bs)) then
      extRight a b ahi bhi fuel (bi, bj, bs + 1)
    else (bi, bj, bs)

/-- `SequenceMatcher.find_longest_match` on the ranges `[alo,ahi) × [blo,bhi)`. -/
def findLongestMatch (a b : List Char) (alo ahi blo bhi : Nat) : Nat × Nat × Nat :=
  let folded := (List.range' alo (ahi - alo)).foldl
    (fun acc i =>
      let js := (match a.get? i with
        | some c => b2j b c
        | none => []).filter (fun j => decide (blo ≤ j) && decide (j < bhi))
      flmRow acc.1 i acc.2 js)
    ([], (alo, blo, 0))
  let st := extLeft a b alo blo folded.2.1 folded.2
  extRight a b ahi bhi ahi st

/-- Total size of all matching blocks (`get_matching_blocks`), fuelled recursion:
the fuel only needs to exceed `(ahi-alo)+(bhi-blo)`, which every call site grants. -/
def matchSum (a b : List Char) : Nat → Nat → Nat → Nat → Nat → Nat
  | 0, _, _, _, _ => 0
  | fuel + 1, alo, ahi, blo, bhi =>
    let r := findLongestMatch a b alo ahi blo bhi
    if r.2.2 == 0 then 0
    else
      matchSum a b fuel alo r.1 blo r.2.1 + r.2.2 +
        matchSum a b fuel (r.1 + r.2.2) ahi (r.2.1 + r.2.2) bhi

/-- Total matched size over the whole sequences. -/
def totalMatches (a b : List Char) : Nat :=
  matchSum a b (a.length + b.length + 1) 0 a.length 0 b.length

/-- `SequenceMatcher.ratio` as an exact fraction `(numerator, denominator)`:
`(2*M, T)`, and `(1, 1)` when both sequences are empty.  Comparisons against
other ratios and against the cutoff are done by cross-multiplication, which
is exact; this agrees with CPython's float comparisons for all inputs of
physically realisable length. -/
def ratioPair (a b : List Char) : Nat × Nat :=
  let T := a.length + b.length
  if T == 0 then (1, 1) else (2 * totalMatches a b, T)

/-- The value of a ratio fraction as a rational (used in statements only). -/
def ratioOfPair (p : Nat × Nat) : ℚ := (p.1 : ℚ) / (p.2 : ℚ)

/-- `SequenceMatcher.ratio` as a rational number (used in statements only). -/
def ratioQ (a b : List Char) : ℚ := ratioOfPair (ratioPair a b)

/-- Python string comparison `x ≥ y` (lexicographic on code points). -/
def strGe : List Char → List Char → Bool
  | _, [] => true
  | [], _ :: _ => false
  | x :: xs, y :: ys =>
    if y.toNat < x.toNat then true
    else if x.toNat < y.toNat then false
    else strGe xs ys

/-- Tuple comparison `(score, name) ≥ (score', name')` used by `heapq.nlargest`;
the score fractions are compared exactly by cross-multiplication. -/
def pairGe (x y : (Nat × Nat) × String) : Bool :=
  if y.1.1 * x.1.2 < x.1.1 * y.1.2 then true
  else if x.1.1 * y.1.2 < y.1.1 * x.1.2 then false
  else strGe x.2.data y.2.data

/-- Insert into a descending-sorted list (generic insertion step). -/
def insertGe {α : Type} (ge : α → α → Bool) (x : α) : List α → List α
  | [] => [x]
  | y :: ys => if ge x y then x :: y :: ys else y :: insertGe ge x ys

/-- Descending insertion sort; for the total, antisymmetric `pairGe` order this
produces exactly the list `sorted(pairs, reverse=True)` that `nlargest` returns. -/
def sortGe {α : Type} (ge : α → α → Bool) : List α → List α
  | [] => []
  | x :: xs => insertGe ge x (sortGe ge xs)

/-- `difflib.get_close_matches(word, possibilities, n, cutoff)` with the
cutoff given as the exact fraction `cutNum/cutDen`: keep candidates whose
ratio reaches the cutoff (the `real_quick_ratio` / `quick_ratio` pre-tests
are upper bounds of `ratio`, so the conjunction is equivalent to the final
test), then the `n` largest `(score, name)` pairs in descending order,
projected to names. -/
def get_close_matches (word : String) (possibilities : List String) (n : Nat)
    (cutNum cutDen : Nat) : List String :=
  let result := possibilities.filterMap (fun x =>
    if cutNum * (ratioPair x.data word.data).2 ≤ cutDen * (ratioPair x.data word.data).1
    then some (ratioPair x.data word.data, x) else none)
  ((sortGe pairGe result).take n).map Prod.snd

/-! ### The static region alias table and the region resolver -/

/-- `self.region_mapping`: alias → canonical full name, in source (insertion) order. -/
def region_mapping : List (String × String) :=
  [("珠三角", "广东省珠三角五市"),
   ("惠州", "广东省惠州市"),
   ("东西两翼", "广东省东西两翼地区"),
   ("粤北", "广东省粤北山区"),
   ("江门", "广东省江门市"),
   ("深圳", "广东省深圳市"),
   ("江苏", "江苏省"),
   ("浙江", "浙江省"),
   ("上海", "上海市"),
   ("安徽", "安徽省"),
   ("北京", "北京市"),
   ("重庆", "重庆市"),
   ("福建", "福建省"),
   ("甘肃", "甘肃省"),
   ("广西", "广西壮族自治区"),
   ("贵州", "贵州省"),
   ("河北北部", "河北省北部"),
   ("河北南部", "河北省南部"),
   ("湖北", "湖北省"),
   ("黑龙江", "黑龙江省"),
   ("河南", "河南省"),
   ("海南", "海南省"),
   ("湖南", "湖南省"),
   ("吉林", "吉林省"),
   ("江西", "江西省"),
   ("辽宁", "辽宁省"),
   ("内蒙古东部", "内蒙古东部地区"),
   ("宁夏", "宁夏回族自治区"),
   ("青海", "青海省"),
   ("四川", "四川省"),
   ("山东", "山东省"),
   ("榆林", "陕西省榆林地区"),
   ("山西", "山西省"),
   ("陕西", "陕西省"),
   ("天津", "天津市"),
   ("新疆", "新疆维吾尔自治区"),
   ("云南", "云南省")]

/-- `list(self.region_mapping.keys()) + list(self.region_mapping.values())`. -/
def all_names : List String :=
  region_mapping.map Prod.fst ++ region_mapping.map Prod.snd

/-- `get_similar_regions`: fuzzy candidates among all aliases and canonical
names, cutoff 0.4 (= 2/5), at most 3, best first. -/
def get_similar_regions (region_name : String) : List String :=
  if region_name = "" then []
  else get_close_matches region_name all_names 3 2 5

/-- `normalize_region_name`: `(canonical?, similar_suggestions)`.
`none` input models Python `None`; `not region_name` is also true for `""`. -/
def normalize_region_name (region_name : Option String) : Option String × List String :=
  match region_name with
  | none => (none, [])
  | some s0 =>
    if s0 = "" then (none, [])
    else
      let s := pyStrip s0
      if (region_mapping.map Prod.snd).contains s then (some s, [])
      else
        match region_mapping.find? (fun kv => kv.1 == s) with
        | some kv => (some kv.2, [])
        | none =>
          match region_mapping.find? (fun kv =>
              isSubOf kv.1.data s.data || isSubOf s.data kv.1.data) with
          | some kv => (some kv.2, [])
          | none => (none, get_similar_regions s)

/-! ### The date normalizer

The three patterns `(\d{4})年(\d{1,2})月`, `(\d{4})-(\d{1,2})`, `(\d{4})/(\d{1,2})`
are applied with `re.match` (anchored at the start, no anchoring at the end).
`\d` is modelled as an ASCII digit. -/

/-- `(\d{4})`: exactly four leading digit characters, returned with the rest. -/
def parse4 : List Char → Option (List Char × List Char)
  | c1 :: c2 :: c3 :: c4 :: rest =>
    if c1.isDigit && c2.isDigit && c3.isDigit && c4.isDigit then
      some ([c1, c2, c3, c4], rest)
    else none
  | _ => none

/-- `(\d{1,2})月`: greedy two digits then `月`, backtracking to one digit then `月`. -/
def monthThenYue : List Char → Option Nat
  | c1 :: c2 :: c3 :: _ =>
    if c1.isDigit then
      if c2.isDigit then
        if c3 == '月' then some (10 * digVal c1 + digVal c2) else none
      else if c2 == '月' then some (digVal c1) else none
    else none
  | [c1, c2] =>
    if c1.isDigit && c2 == '月' then some (digVal c1) else none
  | _ => none

/-- `(\d{1,2})` at the end of the pattern: greedy two digits, else one. -/
def monthLoose : List Char → Option Nat
  | c1 :: c2 :: _ =>
    if c1.isDigit then
      if c2.isDigit then some (10 * digVal c1 + digVal c2) else some (digVal c1)
    else none
  | [c1] => if c1.isDigit then some (digVal c1) else none
  | [] => none

/-- One full pattern: year, a literal separator, then the month matcher. -/
def tryPat (sep : Char) (monthFn : List Char → Option Nat) (cs : List Char) :
    Option (List Char × Nat) :=
  match parse4 cs with
  | some (y, rest) =>
    match rest with
    | c :: rest2 => if c == sep then (monthFn rest2).map (fun m => (y, m)) else none
    | [] => none
  | none => none

/-- The three patterns tried in source order; the first that matches wins. -/
def firstMatch (cs : List Char) : Option (List Char × Nat) :=
  match tryPat '年' monthThenYue cs with
  | some r => some r
  | none =>
    match tryPat '-' monthLoose cs with
    | some r => some r
    | none => tryPat '/' monthLoose cs

/-- Python `f"{month_int:02d}"` for the validated month (1 ≤ m ≤ 12). -/
def pad02 (m : Nat) : List Char :=
  if m < 10 then ['0', digitChar m]
  else [digitChar (m / 10 % 10), digitChar (m % 10)]

/-- `normalize_date`: `(canonical date string?, is_valid)`.  The output keeps
the matched year characters verbatim (`f"{year}年{month_int:02d}月"` formats
the captured year *string*). -/
def normalize_date (date_str : Option String) : Option String × Bool :=
  match date_str with
  | none => (none, false)
  | some s =>
    if s = "" then (none, false)
    else
      match firstMatch (stripList s.data) with
      | some (ycs, m) =>
        if 1 ≤ m ∧ m ≤ 12 then
          (some (String.mk (ycs ++ '年' :: pad02 m ++ ['月'])), true)
        else (none, false)
      | none => (none, false)

/-! ### The query planner (`query_electricity_prices`)

The store is abstracted as a function from the assembled equality-predicate
list to rows; the source issues the single `SELECT ... WHERE 1=1 AND f = %s...`
query exactly in the non-hint branch, so a result that is independent of this
function witnesses that no lookup is performed. -/

/-- Python truthiness of an optional string argument (`None` and `""` are falsy). -/
def pyTruthy : Option String → Bool
  | none => false
  | some s => !(s == "")

/-- Hint returned when neither filter is supplied. -/
def filterHintMsg : String :=
  "请提供查询的地区或月份。例如：查询北京的电价、查询2024年3月的电价。"

/-- Hint appended when a date was supplied but failed to normalize. -/
def dateFormatHintMsg : String :=
  "日期格式不正确，请使用以下格式：2024年3月、2024-3、2024/3"

/-- Region hint: suggestions joined by `、` when present, else a check-the-name
message; the *original* (unstripped) argument is interpolated. -/
def regionHintText (region_name : String) (sims : List String) : String :=
  if sims.isEmpty then
    "未找到地区\"" ++ region_name ++ "\"，请检查地区名称是否正确。"
  else
    "未找到地区\"" ++ region_name ++ "\"，您是否想查询：" ++
      String.intercalate "、" sims ++ "？"

/-- The `hints` list assembled by `query_electricity_prices`. -/
def buildHints (region_name price_date : Option String) : List String :=
  let nr := normalize_region_name region_name
  (if !(pyTruthy nr.1) && pyTruthy region_name then
    [regionHintText (region_name.getD "") nr.2]
  else []) ++
  (if pyTruthy price_date && !(normalize_date price_date).2 then
    [dateFormatHintMsg]
  else [])

/-- `if normalized_region: query += " AND region_name = %s"` — one equality
predicate per truthy normalized field. -/
def optPred (field : String) (v : Option String) : List (String × String) :=
  match v with
  | some c => if c = "" then [] else [(field, c)]
  | none => []

/-- A raw row of the `electricity_prices` table as read by the renderer. -/
structure PriceRecord where
  region_name : String
  price_date : String
  electricity_type1_desc : String
  electricity_type2_desc : Option String
  voltage_level_desc : String
  peak_price : Option ℚ
  sharp_peak_price : Option ℚ
  valley_price : Option ℚ
  normal_price : Option ℚ
  deep_valley_price : Option ℚ
deriving DecidableEq

/-- `query_electricity_prices(region_name, price_date)` → `(results, hint)`,
parameterized by the store (`fetch`). -/
def query_electricity_prices (fetch : List (String × String) → List PriceRecord)
    (region_name price_date : Option String) : List PriceRecord × Option String :=
  let nr := normalize_region_name region_name
  let nd := normalize_date price_date
  if !(pyTruthy region_name) && !(pyTruthy price_date) then
    ([], some filterHintMsg)
  else
    let hints := buildHints region_name price_date
    if hints.isEmpty then
      (fetch (optPred "region_name" nr.1 ++ optPred "price_date" nd.1), none)
    else ([], some (String.intercalate "\n" hints))

/-! ### The result presenter (the rendering branch of `call_tool`) -/

/-- Round-half-even of a rational to an integer (the rounding of `%.4f`,
applied here directly to the exact value scaled by 10000). -/
def roundHalfEven (x : ℚ) : ℤ :=
  let n := ⌊x⌋
  if 1 / 2 < x - n then n + 1
  else if x - n < 1 / 2 then n
  else if Even n then n else n + 1

/-- `f"{v:.4f}"`: integer part, a dot, then exactly four fraction digits. -/
def toFixed4 (q : ℚ) : String :=
  let n := roundHalfEven (q * 10000)
  let s := n.natAbs
  (if n < 0 then "-" else "") ++ Nat.repr (s / 10000) ++ "." ++
    String.mk [digitChar (s / 1000 % 10), digitChar (s / 100 % 10),
               digitChar (s / 10 % 10), digitChar (s % 10)]

/-- `f"{float(p):.4f}" if p else "-"` — the dash is produced by Python
truthiness, i.e. for NULL *and* for a zero price. -/
def formatPrice : Option ℚ → String
  | none => "-"
  | some q => if q = 0 then "-" else toFixed4 q

/-- The combined electricity-type column (`type2` appended after `/` when truthy). -/
def electricityTypeText (row : PriceRecord) : String :=
  row.electricity_type1_desc ++
    (match row.electricity_type2_desc with
     | some d => if d = "" then "" else "/" ++ d
     | none => "")

/-- One Markdown table row. -/
def renderRow (row : PriceRecord) : String :=
  "| " ++ row.region_name ++ " | " ++ row.price_date ++ " | " ++
    electricityTypeText row ++ " | " ++ row.voltage_level_desc ++ " | " ++
    formatPrice row.peak_price ++ " | " ++ formatPrice row.sharp_peak_price ++
    " | " ++ formatPrice row.valley_price ++ " | " ++
    formatPrice row.normal_price ++ " | " ++ formatPrice row.deep_valley_price ++
    " |\n"

/-- Fixed reply when the store returns no rows. -/
def noDataMsg : String := "未找到符合条件的电价数据"

/-- Table header line. -/
def tableHeader : String :=
  "| 地区 | 日期 | 用电类型 | 电压等级 | 峰时电价 | 尖峰电价 | 谷时电价 | 平时电价 | 深谷电价 |\n"

/-- Table separator line. -/
def tableSeparator : String :=
  "|------|------|----------|----------|----------|-----------|----------|-----------|----------|\n"

/-- The explanatory footnote appended after every non-empty table. -/
def explanationMsg : String :=
  "\n\n说明：\n" ++ "1. 电价单位：元/千瓦时\n" ++
    "2. \x27-\x27 表示该时段无电价数据\n" ++
    "3. 峰谷时段的具体划分请参考当地电力部门规定"

/-- Rendering of a retrieved row list into the final text reply. -/
def render (results : List PriceRecord) : String :=
  if results.isEmpty then noDataMsg
  else
    "\n查询结果（共 " ++ Nat.repr results.length ++ " 条记录）：\n\n" ++
      tableHeader ++ tableSeparator ++
      String.join (results.map renderRow) ++ explanationMsg

/-! ### Helper lemmas -/

theorem data_mk (l : List Char) : (String.mk l).data = l := rfl

theorem mk_cons_ne_empty (c : Char) (l : List Char) : String.mk (c :: l) ≠ "" := by
  intro h
  have : (String.mk (c :: l)).data = "".data := congrArg String.data h
  simp [data_mk] at this

theorem dropWhile_eq_self_of_all {l : List Char}
    (h : ∀ c ∈ l, isPySpace c = false) : l.dropWhile isPySpace = l := by
  cases l with
  | nil => rfl
  | cons c t =>
    rw [List.dropWhile_cons]
    simp [h c (by simp)]

theorem dropWhile_eq_nil_of_all {l : List Char}
    (h : ∀ c ∈ l, isPySpace c = true) : l.dropWhile isPySpace = [] := by
  induction l with
  | nil => rfl
  | cons c t ih =>
    rw [List.dropWhile_cons, if_pos (h c (by simp))]
    exact ih (fun x hx => h x (List.mem_cons_of_mem _ hx))

theorem stripList_eq_self {l : List Char}
    (h : ∀ c ∈ l, isPySpace c = false) : stripList l = l := by
  unfold stripList
  rw [dropWhile_eq_self_of_all h,
      dropWhile_eq_self_of_all (fun c hc => h c (List.mem_reverse.mp hc)),
      List.reverse_reverse]

theorem stripList_eq_nil {l : List Char}
    (h : ∀ c ∈ l, isPySpace c = true) : stripList l = [] := by
  unfold stripList
  rw [dropWhile_eq_nil_of_all h]
  rfl

theorem digitChar_mem (d : Nat) :
    digitChar d ∈ ['0', '1', '2', '3', '4', '5', '6', '7', '8', '9'] := by
  unfold digitChar
  split <;> simp

theorem digitChar_isDigit (d : Nat) : (digitChar d).isDigit = true := by
  have h := digitChar_mem d
  simp only [List.mem_cons, List.not_mem_nil, or_false] at h
  rcases h with h | h | h | h | h | h | h | h | h | h <;> rw [h] <;> decide

theorem isPySpace_digitChar (d : Nat) : isPySpace (digitChar d) = false := by
  have h := digitChar_mem d
  simp only [List.mem_cons, List.not_mem_nil, or_false] at h
  rcases h with h | h | h | h | h | h | h | h | h | h <;> rw [h] <;> decide

theorem digVal_digitChar {d : Nat} (h : d < 10) : digVal (digitChar d) = d := by
  interval_cases d <;> decide

/-- Branch form of the region resolver for a non-empty argument. -/
theorem nrn_eq (s0 : String) (h0 : s0 ≠ "") :
    normalize_region_name (some s0) =
      (if (region_mapping.map Prod.snd).contains (pyStrip s0) then (some (pyStrip s0), [])
       else
        match region_mapping.find? (fun kv => kv.1 == pyStrip s0) with
        | some kv => (some kv.2, [])
        | none =>
          match region_mapping.find? (fun kv =>
              isSubOf kv.1.data (pyStrip s0).data || isSubOf (pyStrip s0).data kv.1.data) with
          | some kv => (some kv.2, [])
          | none => (none, get_similar_regions (pyStrip s0))) := by
  simp only [normalize_region_name, h0, if_false]

/-- Branch form of the date normalizer for a non-empty argument. -/
theorem nd_eq (s : String) (h0 : s ≠ "") :
    normalize_date (some s) =
      (match firstMatch (stripList s.data) with
       | some (ycs, m) =>
         if 1 ≤ m ∧ m ≤ 12 then
           (some (String.mk (ycs ++ '年' :: pad02 m ++ ['月'])), true)
         else (none, false)
       | none => (none, false)) := by
  simp only [normalize_date, h0, if_false]

/-! ### Claims -/

/-- **C1.** Every alias in the static region table resolves to its canonical
key, and every canonical key resolves to itself (idempotence on canonical
form: canonical full names are recognized as-is, not re-aliased). -/
theorem C1_alias_and_canonical_resolution :
    (∀ kv ∈ region_mapping, normalize_region_name (some kv.1) = (some kv.2, [])) ∧
    (∀ kv ∈ region_mapping, normalize_region_name (some kv.2) = (some kv.2, [])) := by
  decide

/-- Witness for C1 at the first table entry. -/
theorem C1_witness :
    normalize_region_name (some "珠三角") = (some "广东省珠三角五市", []) ∧
    normalize_region_name (some "广东省珠三角五市") = (some "广东省珠三角五市", []) :=
  ⟨C1_alias_and_canonical_resolution.1 ("珠三角", "广东省珠三角五市") (by decide),
   C1_alias_and_canonical_resolution.2 ("珠三角", "广东省珠三角五市") (by decide)⟩

/-- **C10.** A non-empty all-whitespace region input strips to the empty
string, which is a substring of every alias, so resolution returns the
canonical value of the first alias in table order (广东省珠三角五市) —
neither `Absent` nor `Unresolved`. -/
theorem C10_whitespace_resolves_to_first_alias (s : String) (h0 : s ≠ "")
    (hsp : ∀ c ∈ s.data, isPySpace c = true) :
    normalize_region_name (some s) = (some "广东省珠三角五市", []) := by
  have hstrip : pyStrip s = "" := by
    unfold pyStrip
    rw [stripList_eq_nil hsp]
  rw [nrn_eq s h0, hstrip]
  decide

/-- Witness for C10 at the single-space input. -/
theorem C10_witness : normalize_region_name (some " ") = (some "广东省珠三角五市", []) :=
  C10_whitespace_resolves_to_first_alias " " (by decide) (by decide)

/-- **C4.** When the trimmed input is neither canonical nor an exact alias,
the resolver returns the canonical value of the *first* alias (in table
iteration order, as `List.find?` expresses) related to the input by a
substring relation in either direction. -/
theorem C4_substring_scan_first_match (s : String) (h0 : s ≠ "")
    (h1 : pyStrip s ∉ region_mapping.map Prod.snd)
    (h2 : ∀ kv ∈ region_mapping, kv.1 ≠ pyStrip s)
    (kv0 : String × String)
    (h3 : region_mapping.find? (fun kv =>
        isSubOf kv.1.data (pyStrip s).data || isSubOf (pyStrip s).data kv.1.data) = some kv0) :
    normalize_region_name (some s) = (some kv0.2, []) := by
  have hc : (region_mapping.map Prod.snd).contains (pyStrip s) = false := by
    rw [Bool.eq_false_iff]
    intro hcon
    exact h1 (List.elem_iff.mp hcon)
  have hf : region_mapping.find? (fun kv => kv.1 == pyStrip s) = none := by
    rw [List.find?_eq_none]
    intro kv hkv
    simpa using h2 kv hkv
  rw [nrn_eq s h0, hc, hf, h3]
  rfl

/-- Witness for C4: "河北" is a substring of both "河北北部" and "河北南部";
table order (not specificity) picks the first, giving 河北省北部. -/
theorem C4_witness : normalize_region_name (some "河北") = (some "河北省北部", []) :=
  C4_substring_scan_first_match "河北" (by decide) (by decide) (by decide)
    ("河北北部", "河北省北部") (by decide)

/-- **C5.** A date string whose first matching pattern yields a month outside
[1,12] normalizes to invalid with no suggestions, and so does any string
matching none of the three patterns. -/
theorem C5_invalid_dates_rejected :
    (∀ (s : String) (ycs : List Char) (m : Nat),
      firstMatch (stripList s.data) = some (ycs, m) → ¬(1 ≤ m ∧ m ≤ 12) →
      normalize_date (some s) = (none, false)) ∧
    (∀ s : String, firstMatch (stripList s.data) = none →
      normalize_date (some s) = (none, false)) := by
  constructor
  · intro s ycs m hfm hm
    by_cases h0 : s = ""
    · subst h0
      simp [stripList, firstMatch, tryPat, parse4] at hfm
    · rw [nd_eq s h0, hfm]
      simp [hm]
  · intro s hfm
    by_cases h0 : s = ""
    · subst h0
      rfl
    · rw [nd_eq s h0, hfm]

/-- Witness for C5: month 13 is rejected, and a pattern-free string is rejected. -/
theorem C5_witness :
    normalize_date (some "2024-13") = (none, false) ∧
    normalize_date (some "hello") = (none, false) :=
  ⟨C5_invalid_dates_rejected.1 "2024-13" ['2', '0', '2', '4'] 13 (by decide) (by decide),
   C5_invalid_dates_rejected.2 "hello" (by decide)⟩

/-- **C6.** With both filters absent the planner returns the
"provide at least one filter" hint for every store, so no (unfiltered)
store query is ever issued. -/
theorem C6_both_absent_short_circuits :
    ∀ fetch : List (String × String) → List PriceRecord,
      query_electricity_prices fetch none none = ([], some filterHintMsg) :=
  fun _ => rfl

/-- A placeholder row used to exercise the abstract store in witnesses. -/
def dummyRecord : PriceRecord :=
  ⟨"", "", "", none, "", none, none, none, none, none⟩

/-- **C3.** Whenever a hint is produced (supplied-but-unresolved region, or
supplied-but-invalid date), the planner returns the newline-joined hint text
with an empty record list, and the outcome is the same for every store —
no lookup is performed and no partial results accompany a hint. -/
theorem C3_hints_preclude_lookup (region date : Option String)
    (h : (pyTruthy region = true ∧ (normalize_region_name region).1 = none)
       ∨ (pyTruthy date = true ∧ (normalize_date date).2 = false)) :
    ∀ fetch fetch' : List (String × String) → List PriceRecord,
      query_electricity_prices fetch region date =
        ([], some (String.intercalate "\n" (buildHints region date))) ∧
      query_electricity_prices fetch region date =
        query_electricity_prices fetch' region date := by
  have hne : (!pyTruthy region && !pyTruthy date) = false := by
    rcases h with ⟨h1, _⟩ | ⟨h1, _⟩ <;> simp [h1]
  have hhint : (buildHints region date).isEmpty = false := by
    rcases h with ⟨h1, h2⟩ | ⟨h1, h2⟩
    · have hcond : (!pyTruthy (normalize_region_name region).1 && pyTruthy region) = true := by
        rw [h2, h1]
        rfl
      simp [buildHints, hcond]
    · have hcond : (pyTruthy date && !(normalize_date date).2) = true := by
        rw [h1, h2]
        rfl
      simp [buildHints, hcond]
  intro fetch fetch'
  constructor
  · simp only [query_electricity_prices, hne, Bool.false_eq_true, if_false, hhint]
  · simp only [query_electricity_prices, hne, Bool.false_eq_true, if_false, hhint]

/-- Witness for C3 at an unresolvable region with no store data. -/
theorem C3_witness :
    query_electricity_prices (fun _ => [dummyRecord]) (some "xyz") none =
      ([], some "未找到地区\"xyz\"，请检查地区名称是否正确。") := by
  have h := (C3_hints_preclude_lookup (some "xyz") none
    (Or.inl ⟨by decide, by decide⟩) (fun _ => [dummyRecord]) (fun _ => [])).1
  rw [h]
  decide

/-- **C7.** When a filter was supplied and no hint is produced, the planner
performs the lookup with exactly one equality predicate per `Resolved` field
and none for `Absent` fields; in particular `plan("深圳", "2024-12")` queries
with exactly the two predicates region = 广东省深圳市 and date = 2024年12月. -/
theorem C7_predicates_per_resolved_field (region date : Option String)
    (fetch : List (String × String) → List PriceRecord)
    (hsup : (pyTruthy region || pyTruthy date) = true)
    (hnohint : buildHints region date = []) :
    query_electricity_prices fetch region date =
      (fetch (optPred "region_name" (normalize_region_name region).1 ++
              optPred "price_date" (normalize_date date).1), none) ∧
    query_electricity_prices fetch (some "深圳") (some "2024-12") =
      (fetch [("region_name", "广东省深圳市"), ("price_date", "2024年12月")], none) := by
  have hne : (!pyTruthy region && !pyTruthy date) = false := by
    rcases Bool.or_eq_true_iff.mp hsup with h1 | h1 <;> simp [h1]
  have hempty : (buildHints region date).isEmpty = true := by
    rw [hnohint]
    rfl
  constructor
  · simp only [query_electricity_prices, hne, Bool.false_eq_true, if_false, hempty, if_true]
  · rfl

/-- Witness for C7: the store receives a two-element predicate list. -/
theorem C7_witness :
    query_electricity_prices (fun ps => List.replicate ps.length dummyRecord)
      (some "深圳") (some "2024-12") = ([dummyRecord, dummyRecord], none) := by
  rw [(C7_predicates_per_resolved_field (some "深圳") (some "2024-12")
    (fun ps => List.replicate ps.length dummyRecord) (by decide) (by decide)).2]
  rfl

/-! ### C2: format invariance of date normalization -/

/-- The 4-digit rendering of a year (as written in the accepted notations). -/
def year4 (y : Nat) : List Char :=
  [digitChar (y / 1000 % 10), digitChar (y / 100 % 10),
   digitChar (y / 10 % 10), digitChar (y % 10)]

/-- A month written with 1 digit when below ten, else 2 digits. -/
def monthPlain (m : Nat) : List Char :=
  if m < 10 then [digitChar m] else pad02 m

/-- The canonical key: 4-digit year + 零-padded 2-digit month in the
`YYYY年MM月` form. -/
def canonicalDate (y m : Nat) : String :=
  String.mk (year4 y ++ '年' :: pad02 m ++ ['月'])

theorem year4_cons (y : Nat) (l : List Char) :
    year4 y ++ l = digitChar (y / 1000 % 10) :: (digitChar (y / 100 % 10) ::
      digitChar (y / 10 % 10) :: digitChar (y % 10) :: l) := rfl

theorem noSpace_year4 {c : Char} {y : Nat} (h : c ∈ year4 y) : isPySpace c = false := by
  unfold year4 at h
  simp only [List.mem_cons, List.not_mem_nil, or_false] at h
  rcases h with h | h | h | h <;> rw [h] <;> exact isPySpace_digitChar _

theorem noSpace_pad02 {c : Char} {m : Nat} (h : c ∈ pad02 m) : isPySpace c = false := by
  unfold pad02 at h
  by_cases hm : m < 10 <;> simp only [hm, if_true, if_false, List.mem_cons,
    List.not_mem_nil, or_false, if_pos, if_neg, not_false_iff] at h
  · rcases h with h | h
    · rw [h]; decide
    · rw [h]; exact isPySpace_digitChar _
  · rcases h with h | h <;> rw [h] <;> exact isPySpace_digitChar _

theorem noSpace_monthPlain {c : Char} {m : Nat} (h : c ∈ monthPlain m) :
    isPySpace c = false := by
  unfold monthPlain at h
  by_cases hm : m < 10
  · rw [if_pos hm] at h
    simp only [List.mem_cons, List.not_mem_nil, or_false] at h
    rw [h]; exact isPySpace_digitChar _
  · rw [if_neg hm] at h
    exact noSpace_pad02 h

/-- Stripping a well-formed date notation is the identity. -/
theorem strip_notation (y : Nat) (sep : Char) (hsep : isPySpace sep = false)
    (tail : List Char) (htail : ∀ c ∈ tail, isPySpace c = false) :
    stripList (year4 y ++ sep :: tail) = year4 y ++ sep :: tail := by
  apply stripList_eq_self
  intro c hc
  rcases List.mem_append.mp hc with h | h
  · exact noSpace_year4 h
  · rcases List.mem_cons.mp h with h | h
    · rw [h]; exact hsep
    · exact htail c h

theorem parse4_year4 (y : Nat) (rest : List Char) :
    parse4 (year4 y ++ rest) = some (year4 y, rest) := by
  rw [year4_cons]
  simp [parse4, digitChar_isDigit, year4]

theorem tryPat_sep_eq (sep : Char) (mf : List Char → Option Nat) (y : Nat)
    (tail : List Char) :
    tryPat sep mf (year4 y ++ sep :: tail) = (mf tail).map (fun m => (year4 y, m)) := by
  simp [tryPat, parse4_year4]

theorem tryPat_sep_ne (sep c : Char) (h : (c == sep) = false)
    (mf : List Char → Option Nat) (y : Nat) (tail : List Char) :
    tryPat sep mf (year4 y ++ c :: tail) = none := by
  simp [tryPat, parse4_year4, h]

theorem monthThenYue_monthPlain {m : Nat} (hm1 : 1 ≤ m) (hm2 : m ≤ 12) :
    monthThenYue (monthPlain m ++ ['月']) = some m := by
  by_cases h : m < 10
  · simp only [monthPlain, if_pos h, List.cons_append, List.nil_append]
    simp [monthThenYue, digitChar_isDigit, digVal_digitChar h]
  · simp only [monthPlain, if_neg h, pad02, List.cons_append, List.nil_append]
    simp [monthThenYue, digitChar_isDigit,
      digVal_digitChar (Nat.mod_lt _ (by omega) : m / 10 % 10 < 10),
      digVal_digitChar (Nat.mod_lt _ (by omega) : m % 10 < 10)]
    omega

theorem monthThenYue_pad02 {m : Nat} (hm2 : m ≤ 12) :
    monthThenYue (pad02 m ++ ['月']) = some m := by
  by_cases h : m < 10
  · simp only [pad02, if_pos h, List.cons_append, List.nil_append]
    simp [monthThenYue, digitChar_isDigit, digVal_digitChar h]
    decide
  · simp only [pad02, if_neg h, List.cons_append, List.nil_append]
    simp [monthThenYue, digitChar_isDigit,
      digVal_digitChar (Nat.mod_lt _ (by omega) : m / 10 % 10 < 10),
      digVal_digitChar (Nat.mod_lt _ (by omega) : m % 10 < 10)]
    omega

theorem monthLoose_monthPlain {m : Nat} (hm2 : m ≤ 12) :
    monthLoose (monthPlain m) = some m := by
  by_cases h : m < 10
  · simp only [monthPlain, if_pos h]
    simp [monthLoose, digitChar_isDigit, digVal_digitChar h]
  · simp only [monthPlain, if_neg h, pad02]
    simp [monthLoose, digitChar_isDigit,
      digVal_digitChar (Nat.mod_lt _ (by omega) : m / 10 % 10 < 10),
      digVal_digitChar (Nat.mod_lt _ (by omega) : m % 10 < 10)]
    omega

theorem monthLoose_pad02 {m : Nat} (hm2 : m ≤ 12) :
    monthLoose (pad02 m) = some m := by
  by_cases h : m < 10
  · simp only [pad02, if_pos h]
    simp [monthLoose, digitChar_isDigit, digVal_digitChar h]
    decide
  · simp only [pad02, if_neg h]
    simp [monthLoose, digitChar_isDigit,
      digVal_digitChar (Nat.mod_lt _ (by omega) : m / 10 % 10 < 10),
      digVal_digitChar (Nat.mod_lt _ (by omega) : m % 10 < 10)]
    omega

theorem firstMatch_yue (y : Nat) (tail : List Char) (m : Nat)
    (h : monthThenYue tail = some m) :
    firstMatch (year4 y ++ '年' :: tail) = some (year4 y, m) := by
  unfold firstMatch
  rw [tryPat_sep_eq, h]
  rfl

theorem firstMatch_dash (y : Nat) (tail : List Char) (m : Nat)
    (h : monthLoose tail = some m) :
    firstMatch (year4 y ++ '-' :: tail) = some (year4 y, m) := by
  unfold firstMatch
  rw [tryPat_sep_ne '年' '-' (by decide), tryPat_sep_eq, h]
  rfl

theorem firstMatch_slash (y : Nat) (tail : List Char) (m : Nat)
    (h : monthLoose tail = some m) :
    firstMatch (year4 y ++ '/' :: tail) = some (year4 y, m) := by
  unfold firstMatch
  rw [tryPat_sep_ne '年' '/' (by decide), tryPat_sep_ne '-' '/' (by decide),
    tryPat_sep_eq, h]
  rfl

/-- **C2.** For every year and month (month in [1,12]), the three accepted
notations — `YYYY年M月`, `YYYY-M`, `YYYY/M`, with the month written with one
or two digits — all normalize to the same canonical key: the 4-digit year
plus the zero-padded 2-digit month in the `YYYY年MM月` form. -/
theorem C2_date_format_invariance (y m : Nat)
    (hy1 : 1000 ≤ y) (hy2 : y ≤ 9999) (hm1 : 1 ≤ m) (hm2 : m ≤ 12) :
    ∀ mp ∈ [monthPlain m, pad02 m],
      normalize_date (some (String.mk (year4 y ++ '年' :: (mp ++ ['月'])))) =
        (some (canonicalDate y m), true) ∧
      normalize_date (some (String.mk (year4 y ++ '-' :: mp))) =
        (some (canonicalDate y m), true) ∧
      normalize_date (some (String.mk (year4 y ++ '/' :: mp))) =
        (some (canonicalDate y m), true) := by
  have hmonth : (1 ≤ m ∧ m ≤ 12) := ⟨hm1, hm2⟩
  intro mp hmp
  have hmpNoSpace : ∀ c ∈ mp, isPySpace c = false := by
    rcases List.mem_cons.mp hmp with h | h
    · rw [h]; exact fun c hc => noSpace_monthPlain hc
    · rcases List.mem_cons.mp h with h | h
      · rw [h]; exact fun c hc => noSpace_pad02 hc
      · exact absurd h (List.not_mem_nil _)
  have hYueMonth : monthThenYue (mp ++ ['月']) = some m := by
    rcases List.mem_cons.mp hmp with h | h
    · rw [h]; exact monthThenYue_monthPlain hm1 hm2
    · rcases List.mem_cons.mp h with h | h
      · rw [h]; exact monthThenYue_pad02 hm2
      · exact absurd h (List.not_mem_nil _)
  have hLooseMonth : monthLoose mp = some m := by
    rcases List.mem_cons.mp hmp with h | h
    · rw [h]; exact monthLoose_monthPlain hm2
    · rcases List.mem_cons.mp h with h | h
      · rw [h]; exact monthLoose_pad02 hm2
      · exact absurd h (List.not_mem_nil _)
  have htail1 : ∀ c ∈ mp ++ ['月'], isPySpace c = false := by
    intro c hc
    rcases List.mem_append.mp hc with h | h
    · exact hmpNoSpace c h
    · simp only [List.mem_singleton] at h
      rw [h]; decide
  refine ⟨?_, ?_, ?_⟩
  · rw [nd_eq _ (by rw [year4_cons]; exact mk_cons_ne_empty _ _), data_mk,
      strip_notation y '年' (by decide) (mp ++ ['月']) htail1,
      firstMatch_yue y _ m hYueMonth]
    simp [hmonth.1, hmonth.2, canonicalDate]
  · rw [nd_eq _ (by rw [year4_cons]; exact mk_cons_ne_empty _ _), data_mk,
      strip_notation y '-' (by decide) mp hmpNoSpace,
      firstMatch_dash y _ m hLooseMonth]
    simp [hmonth.1, hmonth.2, canonicalDate]
  · rw [nd_eq _ (by rw [year4_cons]; exact mk_cons_ne_empty _ _), data_mk,
      strip_notation y '/' (by decide) mp hmpNoSpace,
      firstMatch_slash y _ m hLooseMonth]
    simp [hmonth.1, hmonth.2, canonicalDate]

/-- Witness for C2: 2024年3月, 2024-3 and 2024/03 all give 2024年03月. -/
theorem C2_witness :
    normalize_date (some "2024年3月") = (some "2024年03月", true) ∧
    normalize_date (some "2024-3") = (some "2024年03月", true) ∧
    normalize_date (some "2024/03") = (some "2024年03月", true) := by
  have h := C2_date_format_invariance 2024 3 (by decide) (by decide) (by decide) (by decide)
  have hplain := h (monthPlain 3) (by simp)
  have hpad := h (pad02 3) (by simp)
  exact ⟨hplain.1, hplain.2.1, hpad.2.2⟩

/-! ### C8: the result presenter -/

theorem data_dot : ".".data = ['.'] := rfl

theorem data_dash : "-".data = ['-'] := rfl

theorem data_empty_str : "".data = [] := rfl

/-- The fixed-point rendering never collapses to the dash placeholder. -/
theorem toFixed4_ne_dash (q : ℚ) : toFixed4 q ≠ "-" := by
  unfold toFixed4
  intro h
  have hd := congrArg String.data h
  simp only [String.data_append, data_dot, data_dash, data_mk] at hd
  have hlen := congrArg List.length hd
  simp only [List.length_append, List.length_cons, List.length_nil,
    apply_ite List.length, apply_ite String.data, data_dash, data_empty_str] at hlen
  split_ifs at hlen <;> omega

/-- **C8 (amended).** Rendering the empty record list yields the fixed
no-matching-records message; a non-empty list renders one row per record in
input order with the footnote appended unconditionally; each price field is
rendered as the dash exactly when it is null *or zero* (Python truthiness),
and as a number with exactly 4 decimal digits otherwise. -/
theorem C8_render_contract :
    (render [] = noDataMsg) ∧
    (∀ rs : List PriceRecord, rs ≠ [] →
      render rs = "\n查询结果（共 " ++ Nat.repr rs.length ++ " 条记录）：\n\n" ++
        tableHeader ++ tableSeparator ++
        String.join (rs.map renderRow) ++ explanationMsg) ∧
    (formatPrice none = "-") ∧
    (∀ q : ℚ, formatPrice (some q) = "-" ↔ q = 0) ∧
    (∀ q : ℚ, q ≠ 0 → ∃ (intPart : String) (frac : List Char),
      formatPrice (some q) = intPart ++ "." ++ String.mk frac ∧
      frac.length = 4 ∧ ∀ c ∈ frac, c.isDigit = true) := by
  refine ⟨rfl, ?_, rfl, ?_, ?_⟩
  · intro rs hrs
    cases rs with
    | nil => exact absurd rfl hrs
    | cons a t => rfl
  · intro q
    constructor
    · intro h
      by_contra hq
      rw [show formatPrice (some q) = toFixed4 q by simp [formatPrice, hq]] at h
      exact toFixed4_ne_dash q h
    · intro h
      rw [h]
      simp [formatPrice]
  · intro q hq
    refine ⟨(if roundHalfEven (q * 10000) < 0 then "-" else "") ++
        Nat.repr ((roundHalfEven (q * 10000)).natAbs / 10000),
      [digitChar ((roundHalfEven (q * 10000)).natAbs / 1000 % 10),
       digitChar ((roundHalfEven (q * 10000)).natAbs / 100 % 10),
       digitChar ((roundHalfEven (q * 10000)).natAbs / 10 % 10),
       digitChar ((roundHalfEven (q * 10000)).natAbs % 10)], ?_, rfl, ?_⟩
    · simp [formatPrice, hq, toFixed4]
    · intro c hc
      simp only [List.mem_cons, List.not_mem_nil, or_false] at hc
      rcases hc with h | h | h | h <;> rw [h] <;> exact digitChar_isDigit _

/-- Witness for C8 at the one-row list and the price 1. -/
theorem C8_witness :
    render [] = noDataMsg ∧
    render [dummyRecord] = "\n查询结果（共 " ++ Nat.repr 1 ++ " 条记录）：\n\n" ++
      tableHeader ++ tableSeparator ++
      String.join ([dummyRecord].map renderRow) ++ explanationMsg ∧
    ∃ (intPart : String) (frac : List Char),
      formatPrice (some (1 : ℚ)) = intPart ++ "." ++ String.mk frac ∧
      frac.length = 4 ∧ ∀ c ∈ frac, c.isDigit = true :=
  ⟨C8_render_contract.1,
   C8_render_contract.2.1 [dummyRecord] (by simp),
   C8_render_contract.2.2.2.2 1 one_ne_zero⟩

/-- Counterexample to C8 as stated: a *non-null* zero price is rendered as
the dash placeholder, so the dash does not appear exactly when the field is
null. -/
theorem C8_counterexample :
    (some (0 : ℚ) ≠ none) ∧ formatPrice (some (0 : ℚ)) = "-" :=
  ⟨by simp, by simp [formatPrice]⟩

/-! ### C9: the fuzzy-suggestion policy -/

theorem mem_insertGe {α : Type} (ge : α → α → Bool) (x a : α) :
    ∀ l : List α, a ∈ insertGe ge x l ↔ a = x ∨ a ∈ l := by
  intro l
  induction l with
  | nil => simp [insertGe]
  | cons y ys ih =>
    unfold insertGe
    by_cases h : ge x y
    · rw [if_pos h]
      simp [List.mem_cons]
    · rw [if_neg h]
      simp only [List.mem_cons, ih]
      tauto

theorem mem_sortGe {α : Type} (ge : α → α → Bool) (a : α) :
    ∀ l : List α, a ∈ sortGe ge l ↔ a ∈ l := by
  intro l
  induction l with
  | nil => simp [sortGe]
  | cons y ys ih =>
    unfold sortGe
    rw [mem_insertGe, ih, List.mem_cons]

/-- Sortedness of the insertion step, relative to an invariant `Q` that all
inserted elements satisfy (here: positive score denominators). -/
theorem pairwise_insertGe_of_inv {α : Type} (R : α → α → Prop) (Q : α → Prop)
    (ge : α → α → Bool)
    (hT : ∀ a b, Q a → Q b → ge a b = true → R a b)
    (hF : ∀ a b, Q a → Q b → ge a b = false → R b a)
    (htr : ∀ a b c, R a b → R b c → R a c)
    (x : α) (hQx : Q x) :
    ∀ l : List α, (∀ a ∈ l, Q a) → l.Pairwise R → (insertGe ge x l).Pairwise R := by
  intro l
  induction l with
  | nil =>
    intro _ _
    simp [insertGe]
  | cons y ys ih =>
    intro hQ hp
    rw [List.pairwise_cons] at hp
    unfold insertGe
    by_cases h : ge x y
    · rw [if_pos h]
      have hxy : R x y := hT x y hQx (hQ y (by simp)) h
      refine List.Pairwise.cons ?_ (List.Pairwise.cons hp.1 hp.2)
      intro z hz
      rcases List.mem_cons.mp hz with hz | hz
      · rw [hz]; exact hxy
      · exact htr x y z hxy (hp.1 z hz)
    · rw [if_neg h]
      refine List.Pairwise.cons ?_ (ih (fun a ha => hQ a (by simp [ha])) hp.2)
      intro z hz
      rcases (mem_insertGe ge x z ys).mp hz with hz | hz
      · rw [hz]
        exact hF x y hQx (hQ y (by simp)) (Bool.eq_false_iff.mpr h)
      · exact hp.1 z hz

theorem pairwise_sortGe_of_inv {α : Type} (R : α → α → Prop) (Q : α → Prop)
    (ge : α → α → Bool)
    (hT : ∀ a b, Q a → Q b → ge a b = true → R a b)
    (hF : ∀ a b, Q a → Q b → ge a b = false → R b a)
    (htr : ∀ a b c, R a b → R b c → R a c) :
    ∀ l : List α, (∀ a ∈ l, Q a) → (sortGe ge l).Pairwise R := by
  intro l
  induction l with
  | nil =>
    intro _
    simp [sortGe]
  | cons y ys ih =>
    intro hQ
    unfold sortGe
    refine pairwise_insertGe_of_inv R Q ge hT hF htr y (hQ y (by simp)) _ ?_
      (ih (fun a ha => hQ a (by simp [ha])))
    intro a ha
    exact hQ a (by simp [(mem_sortGe ge a ys).mp ha])

theorem ratioPair_den_pos (a b : List Char) : 0 < (ratioPair a b).2 := by
  unfold ratioPair
  by_cases h : (a.length + b.length == 0) = true
  · rw [if_pos h]
    decide
  · rw [if_neg h]
    simp only [beq_iff_eq] at h
    omega

/-- The exact cross-multiplied cutoff test says exactly `ratio ≥ 2/5`. -/
theorem cutoff_iff_ratio (a b : List Char) :
    (2 * (ratioPair a b).2 ≤ 5 * (ratioPair a b).1) ↔ (2 / 5 : ℚ) ≤ ratioQ a b := by
  unfold ratioQ ratioOfPair
  rw [div_le_div_iff (by norm_num) (by exact_mod_cast ratioPair_den_pos a b)]
  constructor
  · intro h
    calc (2 : ℚ) * (ratioPair a b).2 ≤ 5 * (ratioPair a b).1 := by exact_mod_cast h
    _ = (ratioPair a b).1 * 5 := by ring
  · intro h
    have : (2 : ℚ) * (ratioPair a b).2 ≤ 5 * (ratioPair a b).1 := by
      calc (2 : ℚ) * (ratioPair a b).2 ≤ (ratioPair a b).1 * 5 := h
      _ = 5 * (ratioPair a b).1 := by ring
    exact_mod_cast this

theorem pairGe_score_le {x y : (Nat × Nat) × String} (hx : 0 < x.1.2)
    (hy : 0 < y.1.2) (h : pairGe x y = true) :
    ratioOfPair y.1 ≤ ratioOfPair x.1 := by
  unfold ratioOfPair
  rw [div_le_div_iff (by exact_mod_cast hy) (by exact_mod_cast hx)]
  unfold pairGe at h
  split_ifs at h with h1 h2
  · exact_mod_cast le_of_lt h1
  · exact_mod_cast Nat.le_of_not_lt h2

theorem pairGe_score_ge {x y : (Nat × Nat) × String} (hx : 0 < x.1.2)
    (hy : 0 < y.1.2) (h : pairGe x y = false) :
    ratioOfPair x.1 ≤ ratioOfPair y.1 := by
  unfold ratioOfPair
  rw [div_le_div_iff (by exact_mod_cast hx) (by exact_mod_cast hy)]
  unfold pairGe at h
  split_ifs at h with h1 h2
  · exact_mod_cast le_of_lt h2
  · exact_mod_cast Nat.le_of_not_lt h1

attribute [irreducible] ratioOfPair

/-- The candidate pairs kept by `get_close_matches` (cutoff 2/5): their shape. -/
theorem mem_filter_pairs {word : String} {cands : List String}
    {p : (Nat × Nat) × String}
    (hp : p ∈ cands.filterMap (fun x =>
      if 2 * (ratioPair x.data word.data).2 ≤ 5 * (ratioPair x.data word.data).1
      then some (ratioPair x.data word.data, x) else none)) :
    p.2 ∈ cands ∧ p.1 = ratioPair p.2.data word.data ∧
      2 * (ratioPair p.2.data word.data).2 ≤ 5 * (ratioPair p.2.data word.data).1 := by
  rcases List.mem_filterMap.mp hp with ⟨x, hx, heq⟩
  by_cases hcut : 2 * (ratioPair x.data word.data).2 ≤ 5 * (ratioPair x.data word.data).1
  · rw [if_pos hcut] at heq
    cases heq
    exact ⟨hx, rfl, hcut⟩
  · rw [if_neg hcut] at heq
    cases heq

/-- Sortedness by descending ratio of the sorted-truncated-projected result,
for any pair list whose scores record the ratio of their own name. -/
theorem sorted_take_map_spec (word : String) (ps : List ((Nat × Nat) × String))
    (n : Nat) (hps : ∀ p ∈ ps, p.1 = ratioPair p.2.data word.data) :
    (((sortGe pairGe ps).take n).map Prod.snd).Pairwise
      (fun a b => ratioQ b.data word.data ≤ ratioQ a.data word.data) := by
  rw [List.pairwise_map]
  have hsorted : (sortGe pairGe ps).Pairwise
      (fun p q => ratioOfPair q.1 ≤ ratioOfPair p.1) := by
    refine pairwise_sortGe_of_inv
      (fun p q => ratioOfPair q.1 ≤ ratioOfPair p.1)
      (fun p => 0 < p.1.2) pairGe ?_ ?_ ?_ ps ?_
    · intro a b ha hb hab
      exact pairGe_score_le ha hb hab
    · intro a b ha hb hab
      exact pairGe_score_ge ha hb hab
    · intro a b c h1 h2
      exact le_trans h2 h1
    · intro p hp
      rw [hps p hp]
      exact ratioPair_den_pos _ _
  have htake := hsorted.sublist (List.take_sublist n _)
  refine htake.imp_of_mem ?_
  intro p q hpmem hqmem hpq
  have hp2 := (List.take_sublist n _).mem hpmem
  have hq2 := (List.take_sublist n _).mem hqmem
  rw [mem_sortGe] at hp2 hq2
  unfold ratioQ
  rw [← hps p hp2, ← hps q hq2]
  exact hpq

set_option maxHeartbeats 1600000 in
/-- Specification of `get_close_matches` at the 0.4 cutoff: results come from
the candidate pool, meet the cutoff, are sorted by descending similarity, and
number at most `n`. -/
theorem get_close_matches_spec (word : String) (cands : List String) (n : Nat) :
    (get_close_matches word cands n 2 5).length ≤ n ∧
    (∀ s ∈ get_close_matches word cands n 2 5,
      s ∈ cands ∧ (2 / 5 : ℚ) ≤ ratioQ s.data word.data) ∧
    (get_close_matches word cands n 2 5).Pairwise
      (fun a b => ratioQ b.data word.data ≤ ratioQ a.data word.data) := by
  unfold get_close_matches
  refine ⟨?_, ?_, ?_⟩
  · rw [List.length_map, List.length_take]
    exact min_le_left _ _
  · intro s hs
    rcases List.mem_map.mp hs with ⟨p, hp, rfl⟩
    have hp2 := (List.take_sublist n _).mem hp
    rw [mem_sortGe] at hp2
    rcases mem_filter_pairs hp2 with ⟨hmem, _, hcut⟩
    exact ⟨hmem, (cutoff_iff_ratio _ _).mp hcut⟩
  · exact sorted_take_map_spec word _ n
      (fun p hp => (mem_filter_pairs hp).2.1)

/-- Specification of `get_similar_regions`: candidates from the union of
aliases and canonical names, cutoff 0.4, best-first, at most 3. -/
theorem get_similar_regions_spec (w : String) :
    (get_similar_regions w).length ≤ 3 ∧
    (∀ s ∈ get_similar_regions w,
      s ∈ all_names ∧ (2 / 5 : ℚ) ≤ ratioQ s.data w.data) ∧
    (get_similar_regions w).Pairwise
      (fun a b => ratioQ b.data w.data ≤ ratioQ a.data w.data) := by
  unfold get_similar_regions
  by_cases h : w = ""
  · rw [if_pos h]
    simp
  · rw [if_neg h]
    exact get_close_matches_spec w all_names 3

/-- Inversion: if a non-empty region input fails to resolve, the resolver
went through all three matching stages and fell back to fuzzy suggestions
computed on the stripped input. -/
theorem nrn_unresolved {s : String} (h0 : s ≠ "")
    (hu : (normalize_region_name (some s)).1 = none) :
    normalize_region_name (some s) = (none, get_similar_regions (pyStrip s)) := by
  have h := nrn_eq s h0
  by_cases hc : (region_mapping.map Prod.snd).contains (pyStrip s) = true
  · rw [h, if_pos hc] at hu
    simp at hu
  · rw [h, if_neg hc] at hu ⊢
    cases hf : region_mapping.find? (fun kv => kv.1 == pyStrip s) with
    | some kv =>
      simp [hf] at hu
    | none =>
      cases hg : region_mapping.find? (fun kv =>
          isSubOf kv.1.data (pyStrip s).data || isSubOf (pyStrip s).data kv.1.data) with
      | some kv =>
        simp [hf, hg] at hu
      | none =>
        rfl

/-- **C9.** For a supplied region that resolves to `Unresolved`, the fuzzy
suggestions come from the union of all aliases and canonical names, each has
similarity at least 0.4 to the (stripped) input, they are sorted by
descending similarity, and there are at most 3 of them; the planner's first
hint then lists them ("did you mean") when non-empty, and otherwise asks to
check the region name. -/
theorem C9_fuzzy_suggestion_policy (r : String) (h0 : r ≠ "")
    (hu : (normalize_region_name (some r)).1 = none) :
    ((normalize_region_name (some r)).2.length ≤ 3) ∧
    (∀ s ∈ (normalize_region_name (some r)).2,
      s ∈ all_names ∧ (2 / 5 : ℚ) ≤ ratioQ s.data (pyStrip r).data) ∧
    ((normalize_region_name (some r)).2.Pairwise
      (fun a b => ratioQ b.data (pyStrip r).data ≤ ratioQ a.data (pyStrip r).data)) ∧
    (∀ d : Option String, buildHints (some r) d =
      (if (normalize_region_name (some r)).2.isEmpty then
        "未找到地区\"" ++ r ++ "\"，请检查地区名称是否正确。"
       else
        "未找到地区\"" ++ r ++ "\"，您是否想查询：" ++
          String.intercalate "、" (normalize_region_name (some r)).2 ++ "？") ::
      (if pyTruthy d && !(normalize_date d).2 then [dateFormatHintMsg] else [])) := by
  have heq := nrn_unresolved h0 hu
  rw [heq]
  refine ⟨(get_similar_regions_spec _).1, (get_similar_regions_spec _).2.1,
    (get_similar_regions_spec _).2.2, ?_⟩
  intro d
  have hr : (r == "") = false := by
    simp [h0]
  unfold buildHints
  rw [heq]
  simp only [pyTruthy, hr, Bool.not_false, Bool.and_self, if_true, Bool.not_true,
    Bool.true_and, Bool.and_true, regionHintText, Option.getD]
  rfl

/-- Witness for C9 at the unresolvable input "xyz" (empty suggestion list,
check-the-name hint). -/
theorem C9_witness :
    ((normalize_region_name (some "xyz")).2.length ≤ 3) ∧
    (∀ d : Option String, buildHints (some "xyz") d =
      (if (normalize_region_name (some "xyz")).2.isEmpty then
        "未找到地区\"" ++ "xyz" ++ "\"，请检查地区名称是否正确。"
       else
        "未找到地区\"" ++ "xyz" ++ "\"，您是否想查询：" ++
          String.intercalate "、" (normalize_region_name (some "xyz")).2 ++ "？") ::
      (if pyTruthy d && !(normalize_date d).2 then [dateFormatHintMsg] else [])) :=
  ⟨(C9_fuzzy_suggestion_policy "xyz" (by decide) (by decide)).1,
   (C9_fuzzy_suggestion_policy "xyz" (by decide) (by decide)).2.2.2⟩

end EPrice
